import Mathlib

/-
Verification of the build-log state reducer of ninjaview.

The definitions below are a shallow embedding of `src/build_log.rs` and of
the navigation primitive `App::select_log` of `src/main.rs`:

* Rust `String`/`PathBuf` become Lean `String` (paths are plain UTF-8 text),
  `usize` becomes `Nat`, `i64` becomes `Int`.
* `BuildState::update` mutates `self` and panics (via `assert!` and
  `expect`) on a protocol violation; the embedding is a pure function
  `BuildState.update : BuildState → StructLogMessage → Except UpdateError
  BuildState` where a panic is `Except.error UpdateError.protocolViolation`
  (the `ProtocolViolation` of the design's error taxonomy).  In the source
  both panics fire before any mutation, so the error case leaves the
  pre-state untouched, which the functional embedding reflects by simply
  not producing a successor state.
* `str::split_once(' ')` and `Path::file_name` are embedded as structurally
  recursive functions over `List Char` (`breakAtChar`, `splitChars`,
  `fileName`), so that concrete runs reduce definitionally.  `fileName`
  follows the Unix semantics of `Path::file_name`: path components are the
  `'/'`-separated pieces with empty and `"."` pieces normalized away; the
  final component is returned unless it is `".."` or there is none.
  `OsStr::to_str` is total on this model (paths are valid UTF-8 strings).
-/

set_option autoImplicit false

namespace NinjaView

/-- `BuildStatus` of `build_log.rs`. -/
inductive BuildStatus where
  | NotStarted
  | Running
  | Finished
  deriving DecidableEq, Repr

/-- `InputEdgeType` of `build_log.rs`. -/
inductive InputEdgeType where
  | Explicit
  | Implicit
  | OrderOnly
  deriving DecidableEq, Repr

/-- `OutputEdgeType` of `build_log.rs`. -/
inductive OutputEdgeType where
  | Explicit
  | Implicit
  deriving DecidableEq, Repr

/-- `BuildEdgeInput` of `build_log.rs`. -/
structure BuildEdgeInput where
  node_id : Int
  path : String
  in_type : InputEdgeType
  deriving DecidableEq, Repr

/-- `BuildEdgeOutput` of `build_log.rs`. -/
structure BuildEdgeOutput where
  node_id : Int
  path : String
  out_type : OutputEdgeType
  deriving DecidableEq, Repr

/-- `BuildEdgeStarted` of `build_log.rs`. -/
structure BuildEdgeStarted where
  edge_id : Nat
  command : String
  start_time_millis : Int
  inputs : List BuildEdgeInput
  outputs : List BuildEdgeOutput
  deriving DecidableEq, Repr

/-- `BuildEdgeFinished` of `build_log.rs`. -/
structure BuildEdgeFinished where
  edge_id : Nat
  end_time_millis : Int
  success : Bool
  output : String
  deriving DecidableEq, Repr

/-- `StructLogMessage` of `build_log.rs`. -/
inductive StructLogMessage where
  | BuildEdgeStarted (started : BuildEdgeStarted)
  | BuildEdgeFinished (finished : BuildEdgeFinished)
  | TotalEdges (total : Nat)
  | BuildStatus (status : BuildStatus)
  deriving DecidableEq, Repr

/-- `BuildLogEntry` of `build_log.rs` (an `EdgeRecord` of the design:
`success = none` is the `Running` outcome, `some true` is `Succeeded`,
`some false` is `Failed`). -/
structure BuildLogEntry where
  edge_id : Nat
  success : Option Bool
  command : String
  compiler : String
  inputs : List String
  outputs : List String
  output : Option String
  start_time_millis : Int
  end_time_millis : Option Int
  deriving DecidableEq, Repr

/-- `BuildState` of `build_log.rs` (the design's `BuildSummary`). -/
structure BuildState where
  log_entries : List BuildLogEntry
  total_edges : Nat
  build_status : BuildStatus
  deriving DecidableEq, Repr

/-- `BuildState::new`. -/
def BuildState.new : BuildState :=
  { log_entries := []
    total_edges := 0
    build_status := BuildStatus.NotStarted }

/-- Split a character list at the first occurrence of `c`
(the list analogue of `str::split_once`): `none` when `c` does not occur. -/
def breakAtChar (c : Char) : List Char → Option (List Char × List Char)
  | [] => none
  | x :: xs =>
    if x == c then some ([], xs)
    else (breakAtChar c xs).map (fun p => (x :: p.1, p.2))

/-- `str::split_once(c)`: the text before and after the first occurrence
of `c`, or `none` when `c` does not occur. -/
def split_once (s : String) (c : Char) : Option (String × String) :=
  (breakAtChar c s.data).map (fun p => (⟨p.1⟩, ⟨p.2⟩))

/-- Split a character list on every occurrence of `c`
(the list analogue of `str::split` / `String.splitOn` for one character). -/
def splitChars (c : Char) : List Char → List (List Char)
  | [] => [[]]
  | x :: xs =>
    if x == c then [] :: splitChars c xs
    else
      match splitChars c xs with
      | [] => [[x]]
      | y :: ys => (x :: y) :: ys

/-- The path separator of Unix paths. -/
def slashChar : Char := '/'

/-- The `.` path component. -/
def dotChar : Char := '.'

/-- The space character `guess_compiler` splits on. -/
def spaceChar : Char := ' '

/-- `Path::file_name` (then `to_str`, total on UTF-8 text) on Unix:
the last `'/'`-separated component after normalizing away empty and `"."`
components, unless that component is `".."` or no component remains. -/
def fileName (p : String) : Option String :=
  match ((splitChars slashChar p.data).filter
      (fun cs => cs != ([] : List Char) && cs != [dotChar])).getLast? with
  | none => none
  | some cs => if cs == [dotChar, dotChar] then none else some (⟨cs⟩ : String)

/-- `guess_compiler` of `build_log.rs`: the final path component of the
text before the first space, `none` when there is no space or no final
component. -/
def guess_compiler (command : String) : Option String :=
  match split_once command spaceChar with
  | none => none
  | some (exe, _) => fileName exe

/-- The placeholder compiler name used by `BuildState::update` when
`guess_compiler` returns `None`. -/
def unknownCompiler : String := "???"

/-- The `BuildLogEntry` pushed by `BuildState::update` for a
`BuildEdgeStarted` message. -/
def newEntry (started : BuildEdgeStarted) : BuildLogEntry :=
  { edge_id := started.edge_id
    success := none
    command := started.command
    compiler := (guess_compiler started.command).getD unknownCompiler
    inputs := (started.inputs.filter
        (fun e => e.in_type == InputEdgeType.Explicit)).map (fun o => o.path)
    outputs := started.outputs.map (fun o => o.path)
    output := none
    start_time_millis := started.start_time_millis
    end_time_millis := none }

/-- The in-place mutation `BuildState::update` performs on the entry found
for a `BuildEdgeFinished` message. -/
def finishEntry (finished : BuildEdgeFinished) (e : BuildLogEntry) : BuildLogEntry :=
  { e with
    success := some finished.success
    output := some finished.output
    end_time_millis := some finished.end_time_millis }

/-- `iter_mut().find(|e| e.edge_id == finished.edge_id)` followed by the
mutation: rewrite the first entry whose `edge_id` matches, `none` when no
entry matches (the source's `expect` panic). -/
def setFinished (finished : BuildEdgeFinished) :
    List BuildLogEntry → Option (List BuildLogEntry)
  | [] => none
  | e :: rest =>
    if e.edge_id == finished.edge_id then
      some (finishEntry finished e :: rest)
    else
      (setFinished finished rest).map (fun l => e :: l)

/-- The error produced when `BuildState::update` panics: both the
`assert!` in the started branch and the `expect` in the finished branch
signal the design's `ProtocolViolation`. -/
inductive UpdateError where
  | protocolViolation
  deriving DecidableEq, Repr

/-- `BuildState::update` of `build_log.rs`, with panics as errors. -/
def BuildState.update (s : BuildState) (message : StructLogMessage) :
    Except UpdateError BuildState :=
  match message with
  | StructLogMessage.BuildEdgeStarted started =>
    if s.log_entries.any (fun e => e.edge_id == started.edge_id) then
      Except.error UpdateError.protocolViolation
    else
      Except.ok { s with log_entries := s.log_entries ++ [newEntry started] }
  | StructLogMessage.BuildEdgeFinished finished =>
    match setFinished finished s.log_entries with
    | none => Except.error UpdateError.protocolViolation
    | some entries => Except.ok { s with log_entries := entries }
  | StructLogMessage.TotalEdges total =>
    Except.ok { s with total_edges := total }
  | StructLogMessage.BuildStatus status =>
    Except.ok { s with build_status := status }

/-- Apply a sequence of messages in order, stopping at the first failure
(the consumer loop of `main.rs` applies each received message in arrival
order; a panic ends the run). -/
def BuildState.applyAll (s : BuildState) :
    List StructLogMessage → Except UpdateError BuildState
  | [] => Except.ok s
  | m :: ms =>
    match s.update m with
    | Except.error e => Except.error e
    | Except.ok s2 => s2.applyAll ms

/-- `usize::MAX` for the 64-bit targets the program runs on. -/
def USIZE_MAX : Nat := 2 ^ 64 - 1

/-- `usize::saturating_add_signed`: add a signed offset to a `usize`,
saturating at `0` below and at `usize::MAX` above (Nat subtraction already
saturates at `0`). -/
def saturating_add_signed (a : Nat) (off : Int) : Nat :=
  if off < 0 then a - off.natAbs else min (a + off.toNat) USIZE_MAX

/-- `App::select_log` of `main.rs`, as a function of the observable state
it touches: the entry-list length, the currently selected index (if any)
and the requested signed offset; it returns the new selection. -/
def select_log (len : Nat) (selected : Option Nat) (offset : Int) : Option Nat :=
  if len = 0 then none
  else some (min (saturating_add_signed (selected.getD 0) offset) (len - 1))

/-- Scenario 1 start message: `EdgeStarted{id=1, command="g++ -c a.cpp -o
a.o", inputs=[(a.cpp, Explicit)], outputs=[(a.o, Explicit)],
start_time=1000}` (node ids are irrelevant to the reducer). -/
def exStarted1 : BuildEdgeStarted :=
  { edge_id := 1
    command := "g++ -c a.cpp -o a.o"
    start_time_millis := 1000
    inputs := [{ node_id := 10, path := "a.cpp", in_type := InputEdgeType.Explicit }]
    outputs := [{ node_id := 11, path := "a.o", out_type := OutputEdgeType.Explicit }] }

/-- Scenario 1 finish message: `EdgeFinished{id=1, success=true,
output="", end_time=1050}`. -/
def exFinished1 : BuildEdgeFinished :=
  { edge_id := 1, end_time_millis := 1050, success := true, output := "" }

/-- A second finish for the same edge id, with different payload. -/
def exFinished1b : BuildEdgeFinished :=
  { edge_id := 1, end_time_millis := 2000, success := false, output := "boom" }

/-- A second start reusing edge id 1 after it has finished. -/
def exStarted1b : BuildEdgeStarted :=
  { edge_id := 1
    command := "cc -c b.c"
    start_time_millis := 3000
    inputs := []
    outputs := [] }

/-- An `EdgeFinished` for an id (7) that was never started. -/
def exFinished7 : BuildEdgeFinished :=
  { edge_id := 7, end_time_millis := 1, success := false, output := "" }

/-- The state after applying `exStarted1` to the fresh state: one running
entry for edge 1. -/
def exState1 : BuildState :=
  { log_entries := [newEntry exStarted1]
    total_edges := 0
    build_status := BuildStatus.NotStarted }

/-- The state after applying `exStarted1` then `exFinished1` to the fresh
state: one finished entry for edge 1. -/
def exState2 : BuildState :=
  { log_entries := [finishEntry exFinished1 (newEntry exStarted1)]
    total_edges := 0
    build_status := BuildStatus.NotStarted }

/-- The executable name of scenario 1's command. -/
def gppName : String := "g++"

/-- The remainder of scenario 1's command after its first space. -/
def gppArgs : String := "-c a.cpp -o a.o"

/-- The empty command text. -/
def emptyCommand : String := ""

/-- The fields of a `BuildLogEntry` that the design declares immutable
once the entry has been appended: `id`, `command`, `inputs`, `outputs`
and `start_time`. -/
def immutableFields (e : BuildLogEntry) :
    Nat × String × List String × List String × Int :=
  (e.edge_id, e.command, e.inputs, e.outputs, e.start_time_millis)

/-- The per-record tri-state invariant of the design: the `Running`
outcome (`success = none`), an absent `end_time` and an absent
`captured_output` coincide. -/
def entryInv (e : BuildLogEntry) : Prop :=
  (e.success = none ↔ e.end_time_millis = none) ∧
  (e.success = none ↔ e.output = none)

theorem setFinished_none_iff (f : BuildEdgeFinished) (l : List BuildLogEntry) :
    setFinished f l = none ↔ ∀ e ∈ l, e.edge_id ≠ f.edge_id := by
  induction l with
  | nil => simp [setFinished]
  | cons e rest ih =>
    by_cases h : e.edge_id = f.edge_id
    · simp [setFinished, h]
    · simp [setFinished, h, ih]

theorem setFinished_length (f : BuildEdgeFinished) (l l' : List BuildLogEntry)
    (h : setFinished f l = some l') : l'.length = l.length := by
  induction l generalizing l' with
  | nil => simp [setFinished] at h
  | cons e rest ih =>
    rw [setFinished] at h
    split at h
    · injection h with h
      subst h
      rfl
    · obtain ⟨l2, h2, rfl⟩ := Option.map_eq_some'.mp h
      simp [ih l2 h2]

theorem setFinished_getElem? (f : BuildEdgeFinished) (l l' : List BuildLogEntry)
    (h : setFinished f l = some l') (i : Nat) :
    l'[i]? = l[i]? ∨ ∃ e, l[i]? = some e ∧ l'[i]? = some (finishEntry f e) := by
  induction l generalizing l' i with
  | nil => simp [setFinished] at h
  | cons e rest ih =>
    rw [setFinished] at h
    split at h
    · injection h with h
      subst h
      cases i with
      | zero => exact Or.inr ⟨e, by simp, by simp⟩
      | succ n => exact Or.inl (by simp)
    · obtain ⟨l2, h2, rfl⟩ := Option.map_eq_some'.mp h
      cases i with
      | zero => exact Or.inl (by simp)
      | succ n =>
        rcases ih l2 h2 n with h3 | ⟨x, hx1, hx2⟩
        · exact Or.inl (by simpa using h3)
        · exact Or.inr ⟨x, by simpa using hx1, by simpa using hx2⟩

theorem setFinished_append (f : BuildEdgeFinished) (pre post : List BuildLogEntry)
    (e : BuildLogEntry) (hpre : ∀ x ∈ pre, x.edge_id ≠ f.edge_id)
    (he : e.edge_id = f.edge_id) :
    setFinished f (pre ++ e :: post) = some (pre ++ finishEntry f e :: post) := by
  induction pre with
  | nil => simp [setFinished, he]
  | cons a as ih =>
    have ha : a.edge_id ≠ f.edge_id := hpre a (List.mem_cons_self a as)
    simp [setFinished, ha, ih (fun x hx => hpre x (List.mem_cons_of_mem a hx))]

theorem update_ok_cases {s s' : BuildState} {m : StructLogMessage}
    (h : s.update m = Except.ok s') :
    (∃ st, m = StructLogMessage.BuildEdgeStarted st ∧
      s'.log_entries = s.log_entries ++ [newEntry st]) ∨
    (∃ f, m = StructLogMessage.BuildEdgeFinished f ∧
      setFinished f s.log_entries = some s'.log_entries) ∨
    (((∃ t, m = StructLogMessage.TotalEdges t) ∨
        (∃ st, m = StructLogMessage.BuildStatus st)) ∧
      s'.log_entries = s.log_entries) := by
  cases m with
  | BuildEdgeStarted st =>
    rw [BuildState.update] at h
    split at h
    · exact absurd h (by simp)
    · injection h with h
      subst h
      exact Or.inl ⟨st, rfl, rfl⟩
  | BuildEdgeFinished f =>
    rw [BuildState.update] at h
    split at h
    · exact absurd h (by simp)
    · injection h with h
      subst h
      exact Or.inr (Or.inl ⟨f, rfl, by assumption⟩)
  | TotalEdges t =>
    rw [BuildState.update] at h
    injection h with h
    subst h
    exact Or.inr (Or.inr ⟨Or.inl ⟨t, rfl⟩, rfl⟩)
  | BuildStatus st =>
    rw [BuildState.update] at h
    injection h with h
    subst h
    exact Or.inr (Or.inr ⟨Or.inr ⟨st, rfl⟩, rfl⟩)

theorem update_frame {s s' : BuildState} {m : StructLogMessage}
    (h : s.update m = Except.ok s') :
    s.log_entries.length ≤ s'.log_entries.length ∧
    ∀ i : Nat, i < s.log_entries.length →
      (s'.log_entries[i]?).map immutableFields =
        (s.log_entries[i]?).map immutableFields := by
  rcases update_ok_cases h with ⟨st, _, hl⟩ | ⟨f, _, hl⟩ | ⟨_, hl⟩
  · constructor
    · rw [hl]
      simp
    · intro i hi
      rw [hl, List.getElem?_append_left hi]
  · constructor
    · exact le_of_eq (setFinished_length f _ _ hl).symm
    · intro i hi
      rcases setFinished_getElem? f _ _ hl i with h2 | ⟨e, he1, he2⟩
      · rw [h2]
      · rw [he1, he2]
        rfl
  · simp [hl]

/-- Claim C10: the freshly constructed state (`BuildState::new`) has an
empty entries sequence, a `total_edges` hint equal to `0`, and build
status `NotStarted`. -/
theorem new_initial_state :
    BuildState.new.log_entries = [] ∧ BuildState.new.total_edges = 0 ∧
    BuildState.new.build_status = BuildStatus.NotStarted :=
  ⟨rfl, rfl, rfl⟩

/-- Claim C3: starting from the empty state, applying
`EdgeStarted{id=1, command="g++ -c a.cpp -o a.o", inputs=[(a.cpp,
Explicit)], outputs=[(a.o, Explicit)], start_time=1000}` and then
`EdgeFinished{id=1, success=true, output="", end_time=1050}` yields
exactly one entry, with id `1`, compiler `"g++"`, inputs `["a.cpp"]`,
outputs `["a.o"]` and outcome Succeeded (`success = some true`). -/
theorem scenario1_end_to_end :
    (BuildState.applyAll BuildState.new
        [StructLogMessage.BuildEdgeStarted exStarted1,
         StructLogMessage.BuildEdgeFinished exFinished1]).map
      (fun s => s.log_entries.map
        (fun e => (e.edge_id, e.compiler, e.inputs, e.outputs, e.success))) =
    Except.ok [(1, gppName, ["a.cpp"], ["a.o"], some true)] := by
  rfl

/-- Claim C5: an `EdgeFinished` whose id matches no existing record makes
`BuildState::update` fail with a `ProtocolViolation` (the source's
`expect` panic, which fires before any mutation), so no successor state
is produced and every entry and counter keeps its previous value. -/
theorem finished_no_record_protocol_violation (s : BuildState)
    (f : BuildEdgeFinished)
    (h : ∀ e ∈ s.log_entries, e.edge_id ≠ f.edge_id) :
    s.update (StructLogMessage.BuildEdgeFinished f) =
      Except.error UpdateError.protocolViolation := by
  have hset : setFinished f s.log_entries = none :=
    (setFinished_none_iff f s.log_entries).mpr h
  simp [BuildState.update, hset]

/-- Witness for C5, the spec's end-to-end scenario 2: an
`EdgeFinished{id=7, ...}` with no prior start fails with a
`ProtocolViolation` on the empty state. -/
theorem finished_no_record_witness :
    BuildState.new.update (StructLogMessage.BuildEdgeFinished exFinished7) =
      Except.error UpdateError.protocolViolation :=
  finished_no_record_protocol_violation BuildState.new exFinished7
    (by simp [BuildState.new])

/-- Claim C6: the appended record of a successfully applied `EdgeStarted`
has as inputs exactly the paths of the bindings tagged `Explicit`, in
their original relative order (`filter` then `map` preserve order);
`Implicit` and `OrderOnly` bindings are discarded.  The derivation is the
pure function shown on the right-hand side, so equal payloads yield equal
sequences. -/
theorem started_inputs_explicit_projection (s s' : BuildState)
    (m : BuildEdgeStarted)
    (h : s.update (StructLogMessage.BuildEdgeStarted m) = Except.ok s') :
    ∃ e, s'.log_entries = s.log_entries ++ [e] ∧
      e.inputs = (m.inputs.filter
        (fun b => b.in_type == InputEdgeType.Explicit)).map (fun b => b.path) := by
  rw [BuildState.update] at h
  split at h
  · exact absurd h (by simp)
  · injection h with h
    subst h
    exact ⟨newEntry m, rfl, rfl⟩

/-- Witness for C6 at the scenario-1 start message. -/
theorem started_inputs_witness :
    ∃ e, exState1.log_entries = BuildState.new.log_entries ++ [e] ∧
      e.inputs = (exStarted1.inputs.filter
        (fun b => b.in_type == InputEdgeType.Explicit)).map (fun b => b.path) :=
  started_inputs_explicit_projection BuildState.new exState1 exStarted1 (by rfl)

/-- Claim C2, amended: `EdgeStarted` succeeds and appends a new record
exactly when no record with the same id exists at all — the source's
`assert!` scans every entry, not only the `Running` ones, so an id that
already has a finished record is also rejected as a protocol violation. -/
theorem started_unique_id (s : BuildState) (m : BuildEdgeStarted) :
    ((∀ e ∈ s.log_entries, e.edge_id ≠ m.edge_id) →
      s.update (StructLogMessage.BuildEdgeStarted m) =
        Except.ok { s with log_entries := s.log_entries ++ [newEntry m] }) ∧
    ((∃ e ∈ s.log_entries, e.edge_id = m.edge_id) →
      s.update (StructLogMessage.BuildEdgeStarted m) =
        Except.error UpdateError.protocolViolation) := by
  constructor
  · intro h
    have hany : s.log_entries.any (fun e => e.edge_id == m.edge_id) = false := by
      simp only [List.any_eq_false, beq_iff_eq]
      exact h
    simp [BuildState.update, hany]
  · intro h
    have hany : s.log_entries.any (fun e => e.edge_id == m.edge_id) = true := by
      simp only [List.any_eq_true, beq_iff_eq]
      exact h
    simp [BuildState.update, hany]

/-- Witness for C2 (amended): starting edge 1 on the empty state appends
its record. -/
theorem started_unique_id_witness :
    BuildState.new.update (StructLogMessage.BuildEdgeStarted exStarted1) =
      Except.ok { BuildState.new with
        log_entries := BuildState.new.log_entries ++ [newEntry exStarted1] } :=
  (started_unique_id BuildState.new exStarted1).1 (by simp [BuildState.new])

/-- Counterexample to C2 as stated: after edge 1 has started and
finished, a second `EdgeStarted` for id 1 is NOT accepted — the reducer
fails with a `ProtocolViolation` even though no `Running` record with
that id remains. -/
theorem restart_after_finish_counterexample :
    BuildState.applyAll BuildState.new
        [StructLogMessage.BuildEdgeStarted exStarted1,
         StructLogMessage.BuildEdgeFinished exFinished1,
         StructLogMessage.BuildEdgeStarted exStarted1b] =
      Except.error UpdateError.protocolViolation := by
  rfl

/-- Claim C1, amended: an `EdgeFinished` whose id matches an existing
record — `Running` or already finished — succeeds and overwrites the
first matching record's `success`, `captured_output` and `end_time` with
the new message's values: the source's `find` matches any record with the
id, so a second finish is applied again rather than rejected. -/
theorem finished_overwrites_first_match (pre post : List BuildLogEntry)
    (e : BuildLogEntry) (tot : Nat) (bs : BuildStatus) (f : BuildEdgeFinished)
    (hpre : ∀ x ∈ pre, x.edge_id ≠ f.edge_id) (he : e.edge_id = f.edge_id) :
    BuildState.update ⟨pre ++ e :: post, tot, bs⟩
        (StructLogMessage.BuildEdgeFinished f) =
      Except.ok ⟨pre ++ finishEntry f e :: post, tot, bs⟩ := by
  simp [BuildState.update, setFinished_append f pre post e hpre he]

/-- Witness for C1 (amended): a second finish for the already-finished
edge 1 is applied and overwrites the record's finish fields. -/
theorem finished_overwrites_witness :
    BuildState.update
        ⟨[] ++ finishEntry exFinished1 (newEntry exStarted1) :: [], 0,
          BuildStatus.NotStarted⟩
        (StructLogMessage.BuildEdgeFinished exFinished1b) =
      Except.ok
        ⟨[] ++ finishEntry exFinished1b
            (finishEntry exFinished1 (newEntry exStarted1)) :: [], 0,
          BuildStatus.NotStarted⟩ :=
  finished_overwrites_first_match [] []
    (finishEntry exFinished1 (newEntry exStarted1)) 0 BuildStatus.NotStarted
    exFinished1b (by simp) (by rfl)

/-- Counterexample to C1 as stated: start edge 1, finish it
(`success=true, output="", end_time=1050`), then finish it again
(`success=false, output="boom", end_time=2000`).  The second finish is
accepted (`Except.ok`, no `ProtocolViolation`) and the record's outcome,
captured output and end time now hold the second message's values. -/
theorem double_finish_counterexample :
    (BuildState.applyAll BuildState.new
        [StructLogMessage.BuildEdgeStarted exStarted1,
         StructLogMessage.BuildEdgeFinished exFinished1,
         StructLogMessage.BuildEdgeFinished exFinished1b]).map
      (fun s => s.log_entries.map
        (fun e => (e.success, e.output, e.end_time_millis))) =
    Except.ok [(some false, some exFinished1b.output, some (2000 : Int))] := by
  rfl

/-- Claim C7: over any sequence of successfully applied messages the
entry list only grows — its length never decreases, every pre-existing
entry is still at its original index (so nothing is removed or
reordered), and the immutable fields `id`, `command`, `inputs`, `outputs`
and `start_time` of every pre-existing entry are unchanged. -/
theorem entries_append_only (s s' : BuildState) (msgs : List StructLogMessage)
    (h : s.applyAll msgs = Except.ok s') :
    s.log_entries.length ≤ s'.log_entries.length ∧
    ∀ i : Nat, i < s.log_entries.length →
      (s'.log_entries[i]?).map immutableFields =
        (s.log_entries[i]?).map immutableFields := by
  induction msgs generalizing s with
  | nil =>
    rw [BuildState.applyAll] at h
    injection h with h
    subst h
    exact ⟨le_refl _, fun i _ => rfl⟩
  | cons m ms ih =>
    rw [BuildState.applyAll] at h
    split at h
    · exact absurd h (by simp)
    · next s2 heq =>
      obtain ⟨len1, imm1⟩ := update_frame heq
      obtain ⟨len2, imm2⟩ := ih s2 h
      exact ⟨le_trans len1 len2,
        fun i hi => (imm2 i (lt_of_lt_of_le hi len1)).trans (imm1 i hi)⟩

/-- Witness for C7: finishing edge 1 keeps the single entry in place with
its immutable fields intact. -/
theorem entries_append_only_witness :
    exState1.log_entries.length ≤ exState2.log_entries.length ∧
    ∀ i : Nat, i < exState1.log_entries.length →
      (exState2.log_entries[i]?).map immutableFields =
        (exState1.log_entries[i]?).map immutableFields :=
  entries_append_only exState1 exState2
    [StructLogMessage.BuildEdgeFinished exFinished1] (by rfl)

/-- Claim C8: every successful apply preserves the per-record tri-state
invariant — outcome `Running` (`success = none`), an absent `end_time`
and an absent `captured_output` coincide — and the all-present state is
never left again: per index, a record that is finished stays finished,
so the absent-to-present transition happens at most once along any run
(and exactly once for a record that receives a finish). -/
theorem tri_state_invariant (s s' : BuildState) (m : StructLogMessage)
    (hup : s.update m = Except.ok s')
    (hinv : ∀ e ∈ s.log_entries, entryInv e) :
    (∀ e ∈ s'.log_entries, entryInv e) ∧
    ∀ i : Nat, ∀ e e' : BuildLogEntry,
      s.log_entries[i]? = some e → s'.log_entries[i]? = some e' →
      e.success.isSome = true → e'.success.isSome = true := by
  rcases update_ok_cases hup with ⟨st, _, hl⟩ | ⟨f, _, hl⟩ | ⟨_, hl⟩
  · constructor
    · intro e he
      rw [hl] at he
      rcases List.mem_append.mp he with h1 | h1
      · exact hinv e h1
      · have he2 : e = newEntry st := by simpa using h1
        subst he2
        simp [entryInv, newEntry]
    · intro i e e' he he' hs
      have hi : i < s.log_entries.length := by
        rcases List.getElem?_eq_some.mp he with ⟨hlt, _⟩
        exact hlt
      rw [hl, List.getElem?_append_left hi, he] at he'
      injection he' with he'
      rw [← he']
      exact hs
  · constructor
    · intro e he
      obtain ⟨i, hi⟩ := List.mem_iff_getElem?.mp he
      rcases setFinished_getElem? f _ _ hl i with h2 | ⟨x, hx1, hx2⟩
      · rw [h2] at hi
        exact hinv e (List.mem_iff_getElem?.mpr ⟨i, hi⟩)
      · rw [hx2] at hi
        injection hi with hi
        rw [← hi]
        simp [entryInv, finishEntry]
    · intro i e e' he he' hs
      rcases setFinished_getElem? f _ _ hl i with h2 | ⟨x, hx1, hx2⟩
      · rw [h2, he] at he'
        injection he' with he'
        rw [← he']
        exact hs
      · rw [hx2] at he'
        injection he' with he'
        rw [← he']
        simp [finishEntry]
  · constructor
    · intro e he
      exact hinv e (hl ▸ he)
    · intro i e e' he he' hs
      rw [hl, he] at he'
      injection he' with he'
      rw [← he']
      exact hs

/-- Witness for C8: finishing edge 1 preserves the tri-state invariant
and keeps the record finished. -/
theorem tri_state_invariant_witness :
    (∀ e ∈ exState2.log_entries, entryInv e) ∧
    ∀ i : Nat, ∀ e e' : BuildLogEntry,
      exState1.log_entries[i]? = some e → exState2.log_entries[i]? = some e' →
      e.success.isSome = true → e'.success.isSome = true :=
  tri_state_invariant exState1 exState2
    (StructLogMessage.BuildEdgeFinished exFinished1) (by rfl)
    (by simp [exState1, entryInv, newEntry])

/-- Claim C4: compiler-name derivation is total (it is a plain function
into `String`) and never fails: when the command has no space it is the
placeholder `"???"`; when the first space-separated token has an
extractable final path component the derivation returns exactly that
component; when it does not (and for the empty command) the derivation is
again `"???"`. -/
theorem compiler_name_total (command : String) :
    (split_once command spaceChar = none →
      (guess_compiler command).getD unknownCompiler = unknownCompiler) ∧
    (∀ exe rest, split_once command spaceChar = some (exe, rest) →
      (fileName exe = none →
        (guess_compiler command).getD unknownCompiler = unknownCompiler) ∧
      (∀ c, fileName exe = some c →
        (guess_compiler command).getD unknownCompiler = c)) ∧
    (guess_compiler emptyCommand).getD unknownCompiler = unknownCompiler := by
  refine ⟨?_, ?_, by rfl⟩
  · intro h
    simp [guess_compiler, h]
  · intro exe rest h
    constructor
    · intro hf
      simp [guess_compiler, h, hf]
    · intro c hf
      simp [guess_compiler, h, hf]

/-- Witness for C4: on scenario 1's command the derived compiler name is
`"g++"`. -/
theorem compiler_name_total_witness :
    (guess_compiler exStarted1.command).getD unknownCompiler = gppName :=
  ((compiler_name_total exStarted1.command).2.1 gppName gppArgs (by rfl)).2
    gppName (by rfl)

/-- Claim C9: `App::select_log` selects the current index (`0` when
nothing is selected) plus the signed offset, clamped to
`[0, entries.len() - 1]`, and selects nothing when the entry list is
empty.  The hypothesis `len ≤ 2 ^ 64` records that a `Vec` length fits
in a `usize`, so the `usize::MAX` saturation of
`saturating_add_signed` is absorbed by the clamp. -/
theorem select_log_clamps (len : Nat) (selected : Option Nat) (offset : Int)
    (hlen : len ≤ 2 ^ 64) :
    select_log len selected offset =
      if len = 0 then none
      else some (Int.toNat (max 0 (min ((selected.getD 0 : Int) + offset)
        ((len : Int) - 1)))) := by
  by_cases h0 : len = 0
  · simp [select_log, h0]
  · rw [select_log, if_neg h0, if_neg h0]
    congr 1
    rw [saturating_add_signed, USIZE_MAX]
    split
    · next hneg => omega
    · next hpos => omega

/-- Witness for C9: from index 1 of 3 entries, an offset of `-5` clamps
to index 0. -/
theorem select_log_clamps_witness :
    select_log 3 (some 1) (-5) =
      if (3 : Nat) = 0 then none
      else some (Int.toNat (max 0 (min (((some 1).getD 0 : Int) + (-5))
        (((3 : Nat) : Int) - 1)))) :=
  select_log_clamps 3 (some 1) (-5) (by norm_num)

end NinjaView
